import Mathlib

/-!
Verification of `chainer/functions/connection/linear.py`.

The module implements a fully-connected (affine) layer:
* `Linear` owns a weight matrix `W : (out_size, in_size)`, an optional bias
  `b : (out_size,)`, and gradient accumulators of the same shapes.
* `NonparameterizedLinear` treats `W` and `b` as ordinary inputs, building a
  `Linear` internally per call.
* `linear x W b` is the one-shot entry point.

Embedding choices:
* numpy arrays are embedded as `NDArray R`: a flat row-major list of values
  in a commutative ring `R` together with a shape and a dtype tag.  The
  numpy operations the source calls (`dot`, `T.dot`, `sum(0)`, broadcast
  `+=`, `reshape`, `repeat`) are defined entrywise by row-major index
  arithmetic.  IEEE float32 values are modelled as exact ring elements;
  concrete instances use `R = ℤ`, whose values are exactly representable in
  float32 at the sizes involved.
* The `params` / `grads` string-keyed dictionaries of `model.Model` are
  embedded as explicit fields: `W`/`gW` always present, `b`/`gb` optional.
* Failed `assert`s and failed `type_check.expect` calls are embedded as
  `none` results / a `false` check.
-/

/-- numpy dtype tag; the source only ever compares against `float32`. -/
inductive Dtype where
  | float32
  | float64
  | int32
deriving DecidableEq, Repr

/-- An n-dimensional numpy array: shape, flat row-major data, dtype. -/
structure NDArray (R : Type) where
  shape : List ℕ
  data : List R
  dtype : Dtype
deriving DecidableEq, Repr

instance {R : Type} : Inhabited (NDArray R) :=
  ⟨{ shape := [], data := [], dtype := Dtype.float32 }⟩

namespace NDArray

variable {R : Type} [CommRing R]

/-- Embeds `a.ndim` of numpy. -/
def ndim (a : NDArray R) : ℕ := a.shape.length

/-- Embeds `a.reshape(s)`: same data, new shape. -/
def reshape (a : NDArray R) (s : List ℕ) : NDArray R :=
  { a with shape := s }

/-- A zero array of the same shape as `a` (gradient-accumulator allocation). -/
def zerosLike (a : NDArray R) : NDArray R :=
  { a with data := List.replicate a.data.length 0 }

/-- Entry `(i, j)` of a 2-D row-major array with `cols` columns. -/
def ent (d : List R) (cols i j : ℕ) : R := d.getD (i * cols + j) 0

/-- Embeds `x.dot(W.T)` for `x : (n, k)`, `W : (m, k)`; result `(n, m)`, float32. -/
def dotNT (x W : NDArray R) : NDArray R :=
  let n := x.shape.headD 0
  let k := x.shape.getD 1 0
  let m := W.shape.headD 0
  { shape := [n, m]
    data := (List.range (n * m)).map (fun idx =>
      ∑ t ∈ Finset.range k,
        ent x.data k (idx / m) t * ent W.data k (idx % m) t)
    dtype := Dtype.float32 }

/-- Embeds `gy.T.dot(x)` for `gy : (n, m)`, `x : (n, k)`; result `(m, k)`. -/
def dotTN (gy x : NDArray R) : NDArray R :=
  let n := gy.shape.headD 0
  let m := gy.shape.getD 1 0
  let k := x.shape.getD 1 0
  { shape := [m, k]
    data := (List.range (m * k)).map (fun idx =>
      ∑ i ∈ Finset.range n,
        ent gy.data m i (idx / k) * ent x.data k i (idx % k))
    dtype := Dtype.float32 }

/-- Embeds `gy.dot(W)` for `gy : (n, m)`, `W : (m, k)`; result `(n, k)`. -/
def dotNN (gy W : NDArray R) : NDArray R :=
  let n := gy.shape.headD 0
  let m := gy.shape.getD 1 0
  let k := W.shape.getD 1 0
  { shape := [n, k]
    data := (List.range (n * k)).map (fun idx =>
      ∑ j ∈ Finset.range m,
        ent gy.data m (idx / k) j * ent W.data k j (idx % k))
    dtype := Dtype.float32 }

/-- Embeds `gy.sum(0)` for `gy : (n, m)`: column sums, shape `(m,)`. -/
def sumAxis0 (gy : NDArray R) : NDArray R :=
  let n := gy.shape.headD 0
  let m := gy.shape.getD 1 0
  { shape := [m]
    data := (List.range m).map (fun j =>
      ∑ i ∈ Finset.range n, ent gy.data m i j)
    dtype := Dtype.float32 }

/-- Embeds `Y += b` broadcasting `b : (m,)` across the rows of `Y : (n, m)`. -/
def addRowBroadcast (Y b : NDArray R) : NDArray R :=
  let m := Y.shape.getD 1 0
  { Y with data := (List.range Y.data.length).map (fun idx =>
      Y.data.getD idx 0 + b.data.getD (idx % m) 0) }

/-- Elementwise `+=` between same-shaped arrays (gradient accumulation). -/
def addE (a d : NDArray R) : NDArray R :=
  { a with data := List.zipWith (· + ·) a.data d.data }

/-- Embeds `numpy.repeat(numpy.float32(v), n)`: constant vector of length `n`. -/
def repeatScalar (v : R) (n : ℕ) : NDArray R :=
  { shape := [n], data := List.replicate n v, dtype := Dtype.float32 }

end NDArray

/-- Embeds `_as_mat(x)`: a 2-D array is returned unchanged; otherwise
`x.reshape(len(x), -1)` flattens all non-batch dimensions into one. -/
def asMat {R : Type} [CommRing R] (x : NDArray R) : NDArray R :=
  if x.ndim = 2 then x
  else x.reshape [x.shape.headD 0, x.shape.tail.prod]

/-- The `Linear` operator state: `params['W']`, optional `params['b']`, and
the gradient accumulators `grads['W']`, `grads['b']` of `model.Model`. -/
structure Linear (R : Type) where
  W : NDArray R
  b : Option (NDArray R)
  gW : NDArray R
  gb : Option (NDArray R)
deriving DecidableEq, Repr

namespace Linear

variable {R : Type} [CommRing R]

/-- Embeds `Linear.__init__`.  Here `sampledW` stands for the array drawn by
`numpy.random.normal` (external RNG, used only when `initialW is None`).
A failed `assert` on the shape of `initialW` / `initial_bias` is `none`.
Gradient accumulators are modelled from the spec: `model.Model` (not part of
the sources here) allocates them zero-filled with the parameter shapes. -/
def init (in_size out_size : ℕ) (bias : R) (nobias : Bool)
    (initialW initial_bias : Option (NDArray R)) (sampledW : NDArray R) :
    Option (Linear R) := do
  let w ← match initialW with
    | some w0 => if w0.shape = [out_size, in_size] then some w0 else none
    | none => some sampledW
  let b ← match initial_bias with
    | some b0 => if b0.shape = [out_size] then some (some b0) else none
    | none =>
        if nobias then some none
        else some (some (NDArray.repeatScalar bias out_size))
  some { W := w, b := b, gW := w.zerosLike, gb := b.map NDArray.zerosLike }

/-- Embeds `zerograds` (from `model.Model`, modelled from the spec): reset all
gradient accumulators to zero. -/
def zerograds (f : Linear R) : Linear R :=
  { f with gW := f.W.zerosLike, gb := f.b.map NDArray.zerosLike }

/-- Embeds `Linear.check_type_forward`: exactly one input, float32, at least two
dimensions, and the product of the non-batch dimensions equals
`W.shape[1]`. -/
def checkTypeForward (f : Linear R) (ins : List (NDArray R)) : Bool :=
  match ins with
  | [x] =>
      x.dtype = Dtype.float32 ∧ 2 ≤ x.ndim ∧
        x.shape.tail.prod = f.W.shape.getD 1 0
  | _ => false

/-- Embeds `Linear.forward`: `Wx = _as_mat(x).dot(W.T)`; `Wx += b` when the bias
parameter exists. -/
def forward (f : Linear R) (x : NDArray R) : NDArray R :=
  let xm := asMat x
  let Wx := xm.dotNT f.W
  match f.b with
  | some bv => Wx.addRowBroadcast bv
  | none => Wx

/-- Embeds `Linear.backward`: accumulate `gy.T.dot(_as_mat(x))` into `grads['W']`,
accumulate `gy.sum(0)` into `grads['b']` when present, and return
`gy.dot(W).reshape(x.shape)`.  The updated operator carries the mutated
accumulators. -/
def backward (f : Linear R) (x gy : NDArray R) : Linear R × NDArray R :=
  let xm := asMat x
  let f1 : Linear R :=
    { f with gW := f.gW.addE (gy.dotTN xm)
             gb := f.gb.map (fun g => g.addE gy.sumAxis0) }
  (f1, (gy.dotNN f.W).reshape x.shape)

/-- The framework contract (modelled from the spec): the autodiff engine
runs `check_type_forward` and only on success executes `forward`; a failed
check raises, so no output is produced. -/
def call (f : Linear R) (ins : List (NDArray R)) : Option (NDArray R) :=
  if f.checkTypeForward ins then some (f.forward (ins.headD default)) else none

end Linear

namespace NPL

variable {R : Type} [CommRing R]

/-- Embeds `NonparameterizedLinear.check_type_forward`: 2 or 3 inputs; `x` float32
with `ndim >= 2`, `W` float32 two-dimensional, `prod(x.shape[1:]) ==
W.shape[1]`; when a third input `b` is present, it is one-dimensional of
length `W.shape[0]`.  The dtype of `b` is not inspected. -/
def checkTypeForward (ins : List (NDArray R)) : Bool :=
  (2 ≤ ins.length ∧ ins.length ≤ 3) &&
  (match ins with
   | x :: W :: rest =>
       (x.dtype = Dtype.float32 ∧ W.dtype = Dtype.float32 ∧
         2 ≤ x.ndim ∧ W.ndim = 2 ∧
         x.shape.tail.prod = W.shape.getD 1 0) &&
       (match rest with
        | [b] => b.ndim = 1 ∧ b.shape.headD 0 = W.shape.headD 0
        | _ => true)
   | _ => false)

/-- Embeds `NonparameterizedLinear.forward`: read `out_size, in_size` from
`W.shape`, build a `Linear` adopting `W` (and `b` with three inputs, else
`nobias=True`), store it, and run its `forward` on `x[:1]`.  Returns the
stored operator together with the output.  Unpacking a non-2-D `W.shape`
and a failed construction `assert` are `none`. -/
def forward (ins : List (NDArray R)) : Option (Linear R × NDArray R) := do
  let x ← ins.head?
  let W ← ins[1]?
  match W.shape with
  | [out_size, in_size] =>
      let func ← match ins[2]? with
        | some b =>
            Linear.init in_size out_size 0 false (some W) (some b) default
        | none =>
            Linear.init in_size out_size 0 true (some W) none default
      some (func, func.forward x)
  | _ => none

/-- Embeds `NonparameterizedLinear.backward`: zero the stored operator's gradient
accumulators, delegate to its `backward`, then return `(gx, gradW)` or
`(gx, gradW, gradb)` according to whether the operator holds a bias. -/
def backward (func : Linear R) (x gy : NDArray R) : List (NDArray R) :=
  let f0 := func.zerograds
  let r := f0.backward x gy
  match r.1.gb with
  | none => [r.2, r.1.gW]
  | some gb => [r.2, r.1.gW, gb]

/-- The framework contract for `NonparameterizedLinear` (modelled from the
spec): validation runs first; on success `forward` executes. -/
def call (ins : List (NDArray R)) : Option (Linear R × NDArray R) :=
  if checkTypeForward ins then forward ins else none

end NPL

/-- Embeds `linear(x, W, b=None)`: one-shot application of
`NonparameterizedLinear` to `(x, W)` or `(x, W, b)`. -/
def linear {R : Type} [CommRing R] (x W : NDArray R) (b : Option (NDArray R)) :
    Option (Linear R × NDArray R) :=
  match b with
  | none => NPL.call [x, W]
  | some bv => NPL.call [x, W, bv]

/-! ### Indexing lemmas for the row-major embedding -/

variable {R : Type} [CommRing R]

lemma getD_map_range (N : ℕ) (g : ℕ → R) (i : ℕ) (hi : i < N) :
    ((List.range N).map g).getD i 0 = g i := by
  simp [List.getD_eq_getElem?_getD, List.getElem?_map, List.getElem?_range hi]

lemma getD_zipWith_add (a b : List R) (i : ℕ)
    (h : i < a.length) (h' : i < b.length) :
    (List.zipWith (· + ·) a b).getD i 0 = a.getD i 0 + b.getD i 0 := by
  simp only [List.getD_eq_getElem?_getD, List.getElem?_zipWith,
    List.getElem?_eq_getElem h, List.getElem?_eq_getElem h']
  rfl

lemma getD_replicate_zero (n i : ℕ) :
    (List.replicate n (0 : R)).getD i 0 = 0 := by
  rcases Nat.lt_or_ge i n with hi | hi
  · simp [List.getD_eq_getElem?_getD, List.getElem?_replicate, hi]
  · have hlen : (List.replicate n (0 : R)).length ≤ i := by simpa using hi
    simp [List.getD_eq_getElem?_getD, List.getElem?_eq_none hlen]

lemma rowmajor_div (i m j : ℕ) (hj : j < m) : (i * m + j) / m = i := by
  have hm : 0 < m := Nat.pos_of_ne_zero (by rintro rfl; exact Nat.not_lt_zero j hj)
  rw [Nat.add_comm, Nat.add_mul_div_right _ _ hm, Nat.div_eq_of_lt hj, Nat.zero_add]

lemma rowmajor_mod (i m j : ℕ) (hj : j < m) : (i * m + j) % m = j := by
  rw [Nat.add_comm, Nat.add_mul_mod_self_right, Nat.mod_eq_of_lt hj]

lemma rowmajor_lt (n m i j : ℕ) (hi : i < n) (hj : j < m) : i * m + j < n * m :=
  calc i * m + j < i * m + m := by omega
    _ = (i + 1) * m := by ring
    _ ≤ n * m := Nat.mul_le_mul_right m hi

namespace NDArray

/-! ### Entry characterizations of the numpy operations -/

lemma dotNT_shape (x W : NDArray R) (n k m : ℕ)
    (hx : x.shape = [n, k]) (hW : W.shape = [m, k]) :
    (x.dotNT W).shape = [n, m] := by
  simp [dotNT, hx, hW]

lemma dotNT_length (x W : NDArray R) (n k m : ℕ)
    (hx : x.shape = [n, k]) (hW : W.shape = [m, k]) :
    (x.dotNT W).data.length = n * m := by
  simp [dotNT, hx, hW]

lemma dotNT_ent (x W : NDArray R) (n k m i j : ℕ)
    (hx : x.shape = [n, k]) (hW : W.shape = [m, k])
    (hi : i < n) (hj : j < m) :
    ent (x.dotNT W).data m i j
      = ∑ t ∈ Finset.range k, ent x.data k i t * ent W.data k j t := by
  simp only [dotNT, hx, hW, ent, List.headD_cons, List.getD_cons_succ,
    List.getD_cons_zero]
  rw [getD_map_range _ _ _ (rowmajor_lt n m i j hi hj),
    rowmajor_div i m j hj, rowmajor_mod i m j hj]

lemma dotTN_shape (gy x : NDArray R) (n m k : ℕ)
    (hgy : gy.shape = [n, m]) (hx : x.shape = [n, k]) :
    (gy.dotTN x).shape = [m, k] := by
  simp [dotTN, hgy, hx]

lemma dotTN_length (gy x : NDArray R) (n m k : ℕ)
    (hgy : gy.shape = [n, m]) (hx : x.shape = [n, k]) :
    (gy.dotTN x).data.length = m * k := by
  simp [dotTN, hgy, hx]

lemma dotTN_ent (gy x : NDArray R) (n m k j t : ℕ)
    (hgy : gy.shape = [n, m]) (hx : x.shape = [n, k])
    (hj : j < m) (ht : t < k) :
    ent (gy.dotTN x).data k j t
      = ∑ i ∈ Finset.range n, ent gy.data m i j * ent x.data k i t := by
  simp only [dotTN, hgy, hx, ent, List.headD_cons, List.getD_cons_succ,
    List.getD_cons_zero]
  rw [getD_map_range _ _ _ (rowmajor_lt m k j t hj ht),
    rowmajor_div j k t ht, rowmajor_mod j k t ht]

lemma dotNN_shape (gy W : NDArray R) (n m k : ℕ)
    (hgy : gy.shape = [n, m]) (hW : W.shape = [m, k]) :
    (gy.dotNN W).shape = [n, k] := by
  simp [dotNN, hgy, hW]

lemma dotNN_ent (gy W : NDArray R) (n m k i t : ℕ)
    (hgy : gy.shape = [n, m]) (hW : W.shape = [m, k])
    (hi : i < n) (ht : t < k) :
    ent (gy.dotNN W).data k i t
      = ∑ j ∈ Finset.range m, ent gy.data m i j * ent W.data k j t := by
  simp only [dotNN, hgy, hW, ent, List.headD_cons, List.getD_cons_succ,
    List.getD_cons_zero]
  rw [getD_map_range _ _ _ (rowmajor_lt n k i t hi ht),
    rowmajor_div i k t ht, rowmajor_mod i k t ht]

lemma sumAxis0_shape (gy : NDArray R) (n m : ℕ) (hgy : gy.shape = [n, m]) :
    gy.sumAxis0.shape = [m] := by
  simp [sumAxis0, hgy]

lemma sumAxis0_length (gy : NDArray R) (n m : ℕ) (hgy : gy.shape = [n, m]) :
    gy.sumAxis0.data.length = m := by
  simp [sumAxis0, hgy]

lemma sumAxis0_ent (gy : NDArray R) (n m j : ℕ)
    (hgy : gy.shape = [n, m]) (hj : j < m) :
    gy.sumAxis0.data.getD j 0 = ∑ i ∈ Finset.range n, ent gy.data m i j := by
  simp only [sumAxis0, hgy, List.headD_cons, List.getD_cons_succ,
    List.getD_cons_zero]
  rw [getD_map_range _ _ _ hj]

lemma addRowBroadcast_shape (Y b : NDArray R) :
    (Y.addRowBroadcast b).shape = Y.shape := rfl

lemma addE_length (a d : NDArray R) :
    (a.addE d).data.length = min a.data.length d.data.length := by
  simp [addE]

lemma addE_getD (a d : NDArray R) (i : ℕ) (h : i < a.data.length)
    (h' : i < d.data.length) :
    (a.addE d).data.getD i 0 = a.data.getD i 0 + d.data.getD i 0 :=
  getD_zipWith_add _ _ _ h h'

lemma zerosLike_getD (a : NDArray R) (i : ℕ) : a.zerosLike.data.getD i 0 = 0 :=
  getD_replicate_zero _ _

lemma zerosLike_length (a : NDArray R) :
    a.zerosLike.data.length = a.data.length := by
  simp [zerosLike]

lemma addRowBroadcast_ent (Y b : NDArray R) (n m i j : ℕ)
    (hY : Y.shape = [n, m]) (hlen : Y.data.length = n * m)
    (hi : i < n) (hj : j < m) :
    ent (Y.addRowBroadcast b).data m i j
      = ent Y.data m i j + b.data.getD j 0 := by
  simp only [addRowBroadcast, hY, hlen, ent, List.getD_cons_succ,
    List.getD_cons_zero]
  rw [getD_map_range _ _ _ (rowmajor_lt n m i j hi hj),
    rowmajor_mod i m j hj]

end NDArray

/-! ### `_as_mat` lemmas -/

lemma asMat_data (x : NDArray R) : (asMat x).data = x.data := by
  unfold asMat NDArray.reshape
  split <;> rfl

lemma asMat_of_two_dim (x : NDArray R) (n k : ℕ) (hx : x.shape = [n, k]) :
    asMat x = x := by
  unfold asMat
  simp [NDArray.ndim, hx]

lemma asMat_shape (x : NDArray R) (batch inS : ℕ)
    (h0 : x.shape.headD 0 = batch) (h1 : x.shape.tail.prod = inS) :
    (asMat x).shape = [batch, inS] := by
  unfold asMat
  by_cases h : x.ndim = 2
  · rw [if_pos h]
    have hlen : x.shape.length = 2 := h
    rw [List.length_eq_two] at hlen
    obtain ⟨a, b, hab⟩ := hlen
    simp only [hab, List.headD_cons] at h0
    simp only [hab, List.tail_cons, List.prod_cons, List.prod_nil, mul_one] at h1
    rw [hab, h0, h1]
  · rw [if_neg h]
    show [x.shape.headD 0, x.shape.tail.prod] = [batch, inS]
    rw [h0, h1]

/-! ### Characterizations of `Linear.backward` and `zerograds` -/

namespace Linear

lemma backward_gW_ent (f : Linear R) (x gy : NDArray R)
    (batch inS outS j t : ℕ)
    (hx0 : x.shape.headD 0 = batch) (hx1 : x.shape.tail.prod = inS)
    (hgy : gy.shape = [batch, outS])
    (hlen : f.gW.data.length = outS * inS)
    (hj : j < outS) (ht : t < inS) :
    NDArray.ent ((f.backward x gy).1.gW).data inS j t
      = NDArray.ent f.gW.data inS j t
        + ∑ i ∈ Finset.range batch,
            NDArray.ent gy.data outS i j * NDArray.ent x.data inS i t := by
  have hxm : (asMat x).shape = [batch, inS] := asMat_shape x batch inS hx0 hx1
  have hdlen : (gy.dotTN (asMat x)).data.length = outS * inS :=
    NDArray.dotTN_length gy (asMat x) batch outS inS hgy hxm
  have hidx : j * inS + t < outS * inS := rowmajor_lt outS inS j t hj ht
  simp only [backward, NDArray.addE, NDArray.ent]
  rw [getD_zipWith_add _ _ _ (by omega) (by omega)]
  have h2 := NDArray.dotTN_ent gy (asMat x) batch outS inS j t hgy hxm hj ht
  simp only [NDArray.ent] at h2
  rw [h2, asMat_data]

lemma backward_gb_eq (f : Linear R) (x gy : NDArray R) :
    (f.backward x gy).1.gb = f.gb.map (fun g => g.addE gy.sumAxis0) := rfl

lemma backward_gb_ent (f : Linear R) (x gy : NDArray R) (batch outS j : ℕ)
    (hgy : gy.shape = [batch, outS]) (hj : j < outS)
    (g : NDArray R) (hglen : g.data.length = outS) :
    (g.addE gy.sumAxis0).data.getD j 0
      = g.data.getD j 0
        + ∑ i ∈ Finset.range batch, NDArray.ent gy.data outS i j := by
  have hslen : gy.sumAxis0.data.length = outS :=
    NDArray.sumAxis0_length gy batch outS hgy
  simp only [NDArray.addE]
  rw [getD_zipWith_add _ _ _ (by omega) (by omega)]
  rw [NDArray.sumAxis0_ent gy batch outS j hgy hj]

lemma backward_gx_shape (f : Linear R) (x gy : NDArray R) :
    (f.backward x gy).2.shape = x.shape := rfl

lemma backward_gx_ent (f : Linear R) (x gy : NDArray R)
    (batch inS outS i t : ℕ)
    (hgy : gy.shape = [batch, outS])
    (hW : f.W.shape = [outS, inS])
    (hi : i < batch) (ht : t < inS) :
    NDArray.ent ((f.backward x gy).2).data inS i t
      = ∑ j ∈ Finset.range outS,
          NDArray.ent gy.data outS i j * NDArray.ent f.W.data inS j t := by
  simp only [backward, NDArray.reshape]
  exact NDArray.dotNN_ent gy f.W batch outS inS i t hgy hW hi ht

lemma zerograds_gW (f : Linear R) : f.zerograds.gW = f.W.zerosLike := rfl

lemma zerograds_gb (f : Linear R) :
    f.zerograds.gb = f.b.map NDArray.zerosLike := rfl

lemma backward_keeps_params (f : Linear R) (x gy : NDArray R) :
    (f.backward x gy).1.W = f.W ∧ (f.backward x gy).1.b = f.b := ⟨rfl, rfl⟩

end Linear

/-! ### Concrete instances used by counterexamples and witnesses -/

/-- The input `X = numpy.ones((4, 3), dtype=float32)`. -/
def xOnes43 : NDArray ℤ :=
  { shape := [4, 3], data := List.replicate 12 1, dtype := Dtype.float32 }

/-- The weight `W = [[1, 1, 1], [2, 2, 2]]`, float32, shape `(2, 3)`. -/
def wExample : NDArray ℤ :=
  { shape := [2, 3], data := [1, 1, 1, 2, 2, 2], dtype := Dtype.float32 }

/-- The bias `b = [0, 1]`, float32, shape `(2,)`. -/
def bExample : NDArray ℤ :=
  { shape := [2], data := [0, 1], dtype := Dtype.float32 }

/-- An upstream gradient `gy = [[1,0],[0,1],[1,1],[2,3]]`, shape `(4, 2)`. -/
def gyExample : NDArray ℤ :=
  { shape := [4, 2], data := [1, 0, 0, 1, 1, 1, 2, 3], dtype := Dtype.float32 }

/-- A `Linear` operator with the example weight and bias, zeroed grads. -/
def linExample : Linear ℤ :=
  { W := wExample, b := some bExample,
    gW := wExample.zerosLike, gb := some bExample.zerosLike }

/-- A bias-free `Linear` operator with the example weight. -/
def linNoBias : Linear ℤ :=
  { W := wExample, b := none, gW := wExample.zerosLike, gb := none }

/-- The input `X = numpy.ones((4, 3, 1), dtype=float32)`: a 3-D input. -/
def xOnes431 : NDArray ℤ :=
  { shape := [4, 3, 1], data := List.replicate 12 1, dtype := Dtype.float32 }

/-- A float64 input of shape `(4, 3)`. -/
def xFloat64 : NDArray ℤ :=
  { shape := [4, 3], data := List.replicate 12 1, dtype := Dtype.float64 }

/-! ### C1 -/

/-- C1: for a valid float32 input flattened to `(batch, in_size)` and
weight `W : (out_size, in_size)`, forward returns `Y = X·Wᵀ` of shape
`(batch, out_size)` with no bias, and `Y = X·Wᵀ + b` with `b` broadcast
across the batch dimension when a bias is configured, for every
batch ≥ 1. -/
theorem c1_forward_affine (f : Linear R) (X : NDArray R) (batch inS outS : ℕ)
    (hdt : X.dtype = Dtype.float32)
    (hX : X.shape = [batch, inS])
    (hW : f.W.shape = [outS, inS])
    (hbs : ∀ bv, f.b = some bv → bv.shape = [outS])
    (hbatch : 1 ≤ batch)
    (i j : ℕ) (hi : i < batch) (hj : j < outS) :
    (f.forward X).shape = [batch, outS] ∧
    NDArray.ent (f.forward X).data outS i j
      = (∑ k ∈ Finset.range inS,
          NDArray.ent X.data inS i k * NDArray.ent f.W.data inS j k)
        + (match f.b with
           | none => 0
           | some bv => bv.data.getD j 0) := by
  have hmat : asMat X = X := asMat_of_two_dim X batch inS hX
  have hWx_shape : (X.dotNT f.W).shape = [batch, outS] :=
    NDArray.dotNT_shape X f.W batch inS outS hX hW
  have hWx_len : (X.dotNT f.W).data.length = batch * outS :=
    NDArray.dotNT_length X f.W batch inS outS hX hW
  have hWx_ent : NDArray.ent (X.dotNT f.W).data outS i j
      = ∑ k ∈ Finset.range inS,
          NDArray.ent X.data inS i k * NDArray.ent f.W.data inS j k :=
    NDArray.dotNT_ent X f.W batch inS outS i j hX hW hi hj
  unfold Linear.forward
  rw [hmat]
  cases hb : f.b with
  | none =>
      simp only [hb]
      exact ⟨hWx_shape, by rw [hWx_ent, add_zero]⟩
  | some bv =>
      simp only [hb]
      refine ⟨by rw [NDArray.addRowBroadcast_shape, hWx_shape], ?_⟩
      rw [NDArray.addRowBroadcast_ent (X.dotNT f.W) bv batch outS i j
        hWx_shape hWx_len hi hj, hWx_ent]

/-- C1 witness: the theorem applied to the concrete example operator at
entry `(0, 1)`. -/
theorem c1_forward_affine_witness :
    (linExample.forward xOnes43).shape = [4, 2] ∧
    NDArray.ent (linExample.forward xOnes43).data 2 0 1
      = (∑ k ∈ Finset.range 3,
          NDArray.ent xOnes43.data 3 0 k * NDArray.ent linExample.W.data 3 1 k)
        + (match linExample.b with
           | none => 0
           | some bv => bv.data.getD 1 0) :=
  c1_forward_affine linExample xOnes43 4 3 2 rfl rfl rfl
    (by intro bv hbv
        have h2 : some bExample = some bv := hbv
        injection h2 with h3
        rw [← h3]
        decide)
    (by decide) 0 1 (by decide) (by decide)

/-! ### C2 -/

/-- C2: for a valid pre-flatten input `X` and upstream gradient
`gy : (batch, out_size)`, backward adds `gyᵀ·X_flat` into `gradW`, adds the
column-sum of `gy` into `gradb` when a bias exists, and returns the input
gradient `gy·W` reshaped back to `X`'s original shape. -/
theorem c2_backward_formulas (f : Linear R) (X gy : NDArray R)
    (batch inS outS : ℕ)
    (hX0 : X.shape.headD 0 = batch) (hX1 : X.shape.tail.prod = inS)
    (hXr : 2 ≤ X.ndim)
    (hW : f.W.shape = [outS, inS])
    (hgW : f.gW.data.length = outS * inS)
    (hgb : ∀ g, f.gb = some g → g.data.length = outS)
    (hgy : gy.shape = [batch, outS])
    (i j t : ℕ) (hi : i < batch) (hj : j < outS) (ht : t < inS) :
    NDArray.ent ((f.backward X gy).1.gW).data inS j t
      = NDArray.ent f.gW.data inS j t
        + (∑ i2 ∈ Finset.range batch,
            NDArray.ent gy.data outS i2 j * NDArray.ent X.data inS i2 t) ∧
    (f.backward X gy).1.gb.map (fun g => g.data.getD j 0)
      = f.gb.map (fun g => g.data.getD j 0
          + ∑ i2 ∈ Finset.range batch, NDArray.ent gy.data outS i2 j) ∧
    (f.backward X gy).2.shape = X.shape ∧
    NDArray.ent ((f.backward X gy).2).data inS i t
      = ∑ j2 ∈ Finset.range outS,
          NDArray.ent gy.data outS i j2 * NDArray.ent f.W.data inS j2 t := by
  refine ⟨Linear.backward_gW_ent f X gy batch inS outS j t hX0 hX1 hgy hgW hj ht,
    ?_, Linear.backward_gx_shape f X gy,
    Linear.backward_gx_ent f X gy batch inS outS i t hgy hW hi ht⟩
  rw [Linear.backward_gb_eq]
  cases hb : f.gb with
  | none => rfl
  | some g =>
      show some ((g.addE gy.sumAxis0).data.getD j 0) = some _
      exact congrArg some
        (Linear.backward_gb_ent f X gy batch outS j hgy hj g (hgb g hb))

/-- C2 witness: the theorem applied to the concrete example at indices
`i = 3`, `j = 1`, `t = 0`. -/
theorem c2_backward_formulas_witness :
    NDArray.ent ((linExample.backward xOnes43 gyExample).1.gW).data 3 1 0
      = NDArray.ent linExample.gW.data 3 1 0
        + (∑ i2 ∈ Finset.range 4,
            NDArray.ent gyExample.data 2 i2 1 * NDArray.ent xOnes43.data 3 i2 0) ∧
    (linExample.backward xOnes43 gyExample).1.gb.map (fun g => g.data.getD 1 0)
      = linExample.gb.map (fun g => g.data.getD 1 0
          + ∑ i2 ∈ Finset.range 4, NDArray.ent gyExample.data 2 i2 1) ∧
    (linExample.backward xOnes43 gyExample).2.shape = xOnes43.shape ∧
    NDArray.ent ((linExample.backward xOnes43 gyExample).2).data 3 3 0
      = ∑ j2 ∈ Finset.range 2,
          NDArray.ent gyExample.data 2 3 j2 * NDArray.ent linExample.W.data 3 j2 0 :=
  c2_backward_formulas linExample xOnes43 gyExample 4 3 2 rfl rfl (by decide)
    rfl (by decide)
    (by intro g hg
        have h2 : some bExample.zerosLike = some g := hg
        injection h2 with h3
        rw [← h3]
        decide)
    rfl 3 1 0 (by decide) (by decide) (by decide)

/-! ### C3 -/

/-- The output the spec's end-to-end example claims:
`[[3,4],[3,4],[3,4],[3,4]]`. -/
def yC3Claimed : NDArray ℤ :=
  { shape := [4, 2], data := [3, 4, 3, 4, 3, 4, 3, 4], dtype := Dtype.float32 }

/-- What the code computes on that example: rows `X·Wᵀ = (3, 6)` plus
`b = (0, 1)` gives `(3, 7)`, so `[[3,7],[3,7],[3,7],[3,7]]`. -/
def yC3Actual : NDArray ℤ :=
  { shape := [4, 2], data := [3, 7, 3, 7, 3, 7, 3, 7], dtype := Dtype.float32 }

/-- C3 counterexample: on `in_size=3, out_size=2, batch=4`,
`X = ones(4,3)`, `W = [[1,1,1],[2,2,2]]`, `b = [0,1]`, the construction
succeeds and yields exactly the example operator, yet its forward does not
return `[[3,4],[3,4],[3,4],[3,4]]`: the entry at row 0, column 1 is
`1·2 + 1·2 + 1·2 + 1 = 7`, not `4`.  Every value and every intermediate
sum here is a small integer, exactly representable in float32, so the
exact-arithmetic evaluation coincides with the float32 one. -/
theorem c3_counterexample :
    Linear.init 3 2 0 false (some wExample) (some bExample) default
        = some linExample ∧
    linExample.forward xOnes43 ≠ yC3Claimed ∧
    (linExample.forward xOnes43).data.getD 1 0 = 7 ∧
    yC3Claimed.data.getD 1 0 = 4 := by decide

/-- C3 amended: on the same concrete instance (same construction, same
operator) forward returns `[[3,7],[3,7],[3,7],[3,7]]`. -/
theorem c3_amended_forward :
    Linear.init 3 2 0 false (some wExample) (some bExample) default
        = some linExample ∧
    linExample.forward xOnes43 = yC3Actual := by decide

/-! ### C4 -/

/-- An explicit initial bias array used by the C4 counterexample. -/
def bFiveSix : NDArray ℤ :=
  { shape := [2], data := [5, 6], dtype := Dtype.float32 }

/-- C4 counterexample: constructing with the no-bias flag set to true but
an explicit initial bias array still creates the bias — `__init__` stores
`initial_bias` before ever consulting `nobias`, so the operator does have
bias state. -/
theorem c4_counterexample :
    (Linear.init 3 2 0 true none (some bFiveSix) default).map Linear.b
      = some (some bFiveSix) := by decide

/-- C4 amended: with the no-bias flag true and no explicit initial bias
array, no bias and no bias-gradient state is ever created. -/
theorem c4_amended_nobias (in_size out_size : ℕ) (bias : R)
    (initialW : Option (NDArray R)) (sampledW : NDArray R) (f : Linear R)
    (h : Linear.init in_size out_size bias true initialW none sampledW
          = some f) :
    f.b = none ∧ f.gb = none := by
  cases initialW with
  | none =>
      simp only [Linear.init, Option.bind_eq_bind, Option.some_bind] at h
      injection h with h2
      rw [← h2]
      exact ⟨rfl, rfl⟩
  | some w0 =>
      simp only [Linear.init] at h
      by_cases hs : w0.shape = [out_size, in_size]
      · rw [if_pos hs] at h
        simp only [Option.bind_eq_bind, Option.some_bind] at h
        injection h with h2
        rw [← h2]
        exact ⟨rfl, rfl⟩
      · rw [if_neg hs] at h
        simp only [Option.bind_eq_bind, Option.none_bind] at h
        exact Option.noConfusion h

/-- C4 amended witness: the theorem applied to a concrete no-bias
construction. -/
theorem c4_amended_nobias_witness : linNoBias.b = none ∧ linNoBias.gb = none :=
  c4_amended_nobias 3 2 0 (some wExample) default linNoBias (by decide)

/-! ### C7 -/

/-- C7: for `X` of shape `(batch, d1, d2)`, forward produces the same
output as on `X` reshaped to `(batch, d1*d2)`, and the input gradient
returned by backward has shape `(batch, d1, d2)`, the original
non-flattened input shape. -/
theorem c7_flattening_invariant (f : Linear R) (X gy : NDArray R)
    (batch d1 d2 : ℕ) (hX : X.shape = [batch, d1, d2]) :
    f.forward X = f.forward (X.reshape [batch, d1 * d2]) ∧
    (f.backward X gy).2.shape = [batch, d1, d2] := by
  have hmat : asMat X = X.reshape [batch, d1 * d2] := by
    unfold asMat
    rw [if_neg (by simp [NDArray.ndim, hX])]
    unfold NDArray.reshape
    simp [hX, mul_one]
  have hmat2 : asMat (X.reshape [batch, d1 * d2]) = X.reshape [batch, d1 * d2] :=
    asMat_of_two_dim _ batch (d1 * d2) rfl
  constructor
  · unfold Linear.forward
    rw [hmat, hmat2]
  · rw [Linear.backward_gx_shape, hX]

/-- C7 witness: the theorem applied to `X = ones((4, 3, 1))`. -/
theorem c7_flattening_invariant_witness :
    linExample.forward xOnes431
      = linExample.forward (xOnes431.reshape [4, 3 * 1]) ∧
    (linExample.backward xOnes431 gyExample).2.shape = [4, 3, 1] :=
  c7_flattening_invariant linExample xOnes431 gyExample 4 3 1 rfl

/-! ### C8 -/

/-- C8: an input whose dtype is not float32, or whose rank is below 2, or
whose trailing-dimension product differs from `W.shape[1]`, fails
`check_type_forward`, and the framework call therefore never reaches
`forward`: no matrix multiply is performed. -/
theorem c8_validation_blocks_forward (f : Linear R) (x : NDArray R)
    (h : x.dtype ≠ Dtype.float32 ∨ x.ndim < 2 ∨
         x.shape.tail.prod ≠ f.W.shape.getD 1 0) :
    f.checkTypeForward [x] = false ∧ f.call [x] = none := by
  have hc : f.checkTypeForward [x] = false := by
    simp only [Linear.checkTypeForward]
    rw [decide_eq_false_iff_not]
    rintro ⟨h1, h2, h3⟩
    rcases h with h4 | h4 | h4
    · exact h4 h1
    · omega
    · exact h4 h3
  exact ⟨hc, by unfold Linear.call; rw [hc]; simp⟩

/-- C8 witness: a float64 input is rejected. -/
theorem c8_validation_blocks_forward_witness :
    linExample.checkTypeForward [xFloat64] = false ∧
    linExample.call [xFloat64] = none :=
  c8_validation_blocks_forward linExample xFloat64 (Or.inl (by decide))

/-! ### C10 -/

/-- A bias of rank 1 and length `W.shape[0]`, but with int32 dtype. -/
def bInt32 : NDArray ℤ :=
  { shape := [2], data := [0, 1], dtype := Dtype.int32 }

/-- An int32 input of shape `(4, 3)`. -/
def xInt32 : NDArray ℤ :=
  { shape := [4, 3], data := List.replicate 12 1, dtype := Dtype.int32 }

/-- An int32 weight of shape `(2, 3)`. -/
def wInt32 : NDArray ℤ :=
  { shape := [2, 3], data := [1, 1, 1, 2, 2, 2], dtype := Dtype.int32 }

/-- C10: the nonparameterized validation checks the dtypes of `X` and `W`
(a non-float32 `X` or `W` is rejected) but never inspects the dtype of
`b`: with float32 `X`, `W` and an int32 `b` of rank 1 and length
`W.shape[0]`, validation passes and forward executes. -/
theorem c10_bias_dtype_unchecked :
    bInt32.dtype ≠ Dtype.float32 ∧
    NPL.checkTypeForward [xOnes43, wExample, bInt32] = true ∧
    (NPL.call [xOnes43, wExample, bInt32]).isSome = true ∧
    NPL.checkTypeForward [xInt32, wExample, bExample] = false ∧
    NPL.checkTypeForward [xOnes43, wInt32, bExample] = false := by decide

/-! ### C6 -/

/-- C6: on an operator whose gradients were zeroed once, two backward
calls with the same `(X, gy)` leave `gradW` (and `gradb` when a bias
exists) at exactly twice the single-call values. -/
theorem c6_double_backward (f : Linear R) (X gy : NDArray R)
    (batch inS outS : ℕ)
    (hX0 : X.shape.headD 0 = batch) (hX1 : X.shape.tail.prod = inS)
    (hXr : 2 ≤ X.ndim)
    (hW : f.W.shape = [outS, inS]) (hWd : f.W.data.length = outS * inS)
    (hb : ∀ bv, f.b = some bv → bv.data.length = outS)
    (hgy : gy.shape = [batch, outS])
    (j t : ℕ) (hj : j < outS) (ht : t < inS) :
    NDArray.ent (((f.zerograds.backward X gy).1.backward X gy).1.gW).data inS j t
      = 2 * NDArray.ent ((f.zerograds.backward X gy).1.gW).data inS j t ∧
    ((f.zerograds.backward X gy).1.backward X gy).1.gb.map
        (fun g => g.data.getD j 0)
      = (f.zerograds.backward X gy).1.gb.map (fun g => 2 * g.data.getD j 0) := by
  have hxm : (asMat X).shape = [batch, inS] := asMat_shape X batch inS hX0 hX1
  have hlen0 : f.zerograds.gW.data.length = outS * inS := by
    rw [Linear.zerograds_gW, NDArray.zerosLike_length, hWd]
  have hdelta : (gy.dotTN (asMat X)).data.length = outS * inS :=
    NDArray.dotTN_length gy (asMat X) batch outS inS hgy hxm
  have hlen1 : (f.zerograds.backward X gy).1.gW.data.length = outS * inS := by
    show (f.zerograds.gW.addE (gy.dotTN (asMat X))).data.length = outS * inS
    simp only [NDArray.addE, List.length_zipWith]
    omega
  have hone := Linear.backward_gW_ent f.zerograds X gy batch inS outS j t
    hX0 hX1 hgy hlen0 hj ht
  have htwo := Linear.backward_gW_ent (f.zerograds.backward X gy).1 X gy
    batch inS outS j t hX0 hX1 hgy hlen1 hj ht
  have hzero : NDArray.ent f.zerograds.gW.data inS j t = 0 := by
    rw [Linear.zerograds_gW]
    exact NDArray.zerosLike_getD f.W (j * inS + t)
  constructor
  · rw [htwo, hone, hzero]
    ring
  · rw [Linear.backward_gb_eq, Linear.backward_gb_eq, Linear.zerograds_gb]
    cases hbv : f.b with
    | none => rfl
    | some bv =>
        have hbl : bv.data.length = outS := hb bv hbv
        have hsl : gy.sumAxis0.data.length = outS :=
          NDArray.sumAxis0_length gy batch outS hgy
        have hl1 : bv.zerosLike.data.length = outS := by
          rw [NDArray.zerosLike_length, hbl]
        have hl2 : (bv.zerosLike.addE gy.sumAxis0).data.length = outS := by
          rw [NDArray.addE_length, hl1, hsl, Nat.min_self]
        simp only [Option.map_map, Option.map_some]
        refine congrArg some ?_
        show ((bv.zerosLike.addE gy.sumAxis0).addE gy.sumAxis0).data.getD j 0
          = 2 * (bv.zerosLike.addE gy.sumAxis0).data.getD j 0
        rw [NDArray.addE_getD _ _ j (by omega) (by omega),
          NDArray.addE_getD _ _ j (by omega) (by omega),
          NDArray.zerosLike_getD, zero_add]
        ring

/-- C6 witness: the theorem applied to the concrete example at entry
`(1, 0)` of `gradW` and entry `1` of `gradb`. -/
theorem c6_double_backward_witness :
    NDArray.ent
        (((linExample.zerograds.backward xOnes43 gyExample).1.backward
            xOnes43 gyExample).1.gW).data 3 1 0
      = 2 * NDArray.ent
          ((linExample.zerograds.backward xOnes43 gyExample).1.gW).data 3 1 0 ∧
    ((linExample.zerograds.backward xOnes43 gyExample).1.backward
        xOnes43 gyExample).1.gb.map (fun g => g.data.getD 1 0)
      = (linExample.zerograds.backward xOnes43 gyExample).1.gb.map
          (fun g => 2 * g.data.getD 1 0) :=
  c6_double_backward linExample xOnes43 gyExample 4 3 2 rfl rfl (by decide)
    rfl (by decide)
    (by intro bv hbv
        have h2 : some bExample = some bv := hbv
        injection h2 with h3
        rw [← h3]
        decide)
    rfl 1 0 (by decide) (by decide)

/-! ### Inversion of `NonparameterizedLinear.forward` -/

namespace NPL

lemma forward_two (x0 W0 : NDArray R) (p : Linear R × NDArray R)
    (hf : forward [x0, W0] = some p) :
    ∃ o i, W0.shape = [o, i] ∧
      p.1 = { W := W0, b := none, gW := W0.zerosLike, gb := none } ∧
      p.2 = p.1.forward x0 := by
  rcases hsh : W0.shape with _ | ⟨o, _ | ⟨i, _ | ⟨c, tl⟩⟩⟩
  · simp [forward, hsh] at hf
  · simp [forward, hsh] at hf
  · refine ⟨o, i, rfl, ?_⟩
    simp only [forward, List.head?_cons, Option.bind_eq_bind,
      Option.some_bind, List.getElem?_cons_succ, List.getElem?_cons_zero,
      hsh, List.getElem?_nil, Linear.init] at hf
    simp only [if_true, Option.some_bind] at hf
    injection hf with h2
    rw [← h2]
    exact ⟨rfl, rfl⟩
  · simp [forward, hsh] at hf

lemma forward_three (x0 W0 b0 : NDArray R) (p : Linear R × NDArray R)
    (hf : forward [x0, W0, b0] = some p) :
    ∃ o i, W0.shape = [o, i] ∧ b0.shape = [o] ∧
      p.1 = { W := W0, b := some b0,
              gW := W0.zerosLike, gb := some b0.zerosLike } ∧
      p.2 = p.1.forward x0 := by
  rcases hsh : W0.shape with _ | ⟨o, _ | ⟨i, _ | ⟨c, tl⟩⟩⟩
  · simp [forward, hsh] at hf
  · simp [forward, hsh] at hf
  · refine ⟨o, i, rfl, ?_⟩
    simp only [forward, List.head?_cons, Option.bind_eq_bind,
      Option.some_bind, List.getElem?_cons_succ, List.getElem?_cons_zero,
      hsh, Linear.init] at hf
    simp only [if_true] at hf
    by_cases hbs : b0.shape = [o]
    · rw [if_pos hbs] at hf
      simp only [Option.some_bind] at hf
      injection hf with h2
      rw [← h2]
      exact ⟨hbs, rfl, rfl⟩
    · rw [if_neg hbs] at hf
      simp only [Option.none_bind] at hf
      exact Option.noConfusion hf
  · simp [forward, hsh] at hf

lemma backward_eq_nobias (func : Linear R) (x gy : NDArray R)
    (hb : func.b = none) :
    backward func x gy
      = [(func.zerograds.backward x gy).2,
         (func.zerograds.backward x gy).1.gW] := by
  have h2 : (func.zerograds.backward x gy).1.gb = none := by
    rw [Linear.backward_gb_eq, Linear.zerograds_gb, hb]
    rfl
  simp only [backward, h2]

lemma backward_eq_bias (func : Linear R) (x gy : NDArray R) (g : NDArray R)
    (hb : func.b = some g) :
    backward func x gy
      = [(func.zerograds.backward x gy).2,
         (func.zerograds.backward x gy).1.gW,
         g.zerosLike.addE gy.sumAxis0] := by
  have h2 : (func.zerograds.backward x gy).1.gb
      = some (g.zerosLike.addE gy.sumAxis0) := by
    rw [Linear.backward_gb_eq, Linear.zerograds_gb, hb]
    rfl
  simp only [backward, h2]

end NPL

/-! ### C9 -/

/-- C9: after a forward on the same instance, the nonparameterized
backward zeroes the internal operator's accumulators before delegating,
returns a 2-tuple when forward received 2 inputs and a 3-tuple for 3
inputs, and the returned `gradW`/`gradb` reflect exactly this single
backward call, independent of any previously accumulated state. -/
theorem c9_npl_backward_single_call (ins : List (NDArray R))
    (func : Linear R) (Y : NDArray R)
    (hf : NPL.forward ins = some (func, Y))
    (hlen : ins.length = 2 ∨ ins.length = 3)
    (x gy : NDArray R) (batch inS outS : ℕ)
    (hx0 : x.shape.headD 0 = batch) (hx1 : x.shape.tail.prod = inS)
    (hxr : 2 ≤ x.ndim)
    (hWd : func.W.data.length = outS * inS)
    (hbd : ∀ bv, func.b = some bv → bv.data.length = outS)
    (hgy : gy.shape = [batch, outS])
    (j t : ℕ) (hj : j < outS) (ht : t < inS) :
    (NPL.backward func x gy).length = ins.length ∧
    NDArray.ent ((NPL.backward func x gy).getD 1 default).data inS j t
      = (∑ i ∈ Finset.range batch,
          NDArray.ent gy.data outS i j * NDArray.ent x.data inS i t) ∧
    ((NPL.backward func x gy)[2]?).map (fun g => g.data.getD j 0)
      = (if ins.length = 3
         then some (∑ i ∈ Finset.range batch, NDArray.ent gy.data outS i j)
         else none) := by
  have hlen0 : func.zerograds.gW.data.length = outS * inS := by
    rw [Linear.zerograds_gW, NDArray.zerosLike_length, hWd]
  have hone := Linear.backward_gW_ent func.zerograds x gy batch inS outS j t
    hx0 hx1 hgy hlen0 hj ht
  have hzero : NDArray.ent func.zerograds.gW.data inS j t = 0 := by
    rw [Linear.zerograds_gW]
    exact NDArray.zerosLike_getD func.W (j * inS + t)
  rcases hlen with h2 | h3
  · obtain ⟨x0, W0, hxx⟩ := List.length_eq_two.mp h2
    subst hxx
    obtain ⟨o, i2, hsh, hfunc, hY⟩ := NPL.forward_two x0 W0 (func, Y) hf
    have hbnone : func.b = none := by rw [show func = _ from hfunc]
    rw [NPL.backward_eq_nobias func x gy hbnone]
    refine ⟨rfl, ?_, by simp⟩
    show NDArray.ent ((func.zerograds.backward x gy).1.gW).data inS j t = _
    rw [hone, hzero, zero_add]
  · obtain ⟨x0, W0, b0, hxx⟩ := List.length_eq_three.mp h3
    subst hxx
    obtain ⟨o, i2, hsh, hbs, hfunc, hY⟩ := NPL.forward_three x0 W0 b0 (func, Y) hf
    have hbsome : func.b = some b0 := by rw [show func = _ from hfunc]
    have hblen : b0.data.length = outS := hbd b0 hbsome
    rw [NPL.backward_eq_bias func x gy b0 hbsome]
    refine ⟨rfl, ?_, ?_⟩
    · show NDArray.ent ((func.zerograds.backward x gy).1.gW).data inS j t = _
      rw [hone, hzero, zero_add]
    · have hsl : gy.sumAxis0.data.length = outS :=
        NDArray.sumAxis0_length gy batch outS hgy
      have hzl : b0.zerosLike.data.length = outS := by
        rw [NDArray.zerosLike_length, hblen]
      rw [if_pos (show [x0, W0, b0].length = 3 from rfl)]
      show some ((b0.zerosLike.addE gy.sumAxis0).data.getD j 0) = _
      refine congrArg some ?_
      rw [NDArray.addE_getD _ _ j (by omega) (by omega),
        NDArray.zerosLike_getD, zero_add]
      exact NDArray.sumAxis0_ent gy batch outS j hgy hj

/-- C9 witness: the theorem applied to the concrete 3-input forward, at
entry `(1, 0)` of `gradW` and entry `1` of `gradb`. -/
theorem c9_npl_backward_single_call_witness :
    (NPL.backward linExample xOnes43 gyExample).length
        = [xOnes43, wExample, bExample].length ∧
    NDArray.ent
        ((NPL.backward linExample xOnes43 gyExample).getD 1 default).data 3 1 0
      = (∑ i ∈ Finset.range 4,
          NDArray.ent gyExample.data 2 i 1 * NDArray.ent xOnes43.data 3 i 0) ∧
    ((NPL.backward linExample xOnes43 gyExample)[2]?).map
        (fun g => g.data.getD 1 0)
      = (if [xOnes43, wExample, bExample].length = 3
         then some (∑ i ∈ Finset.range 4, NDArray.ent gyExample.data 2 i 1)
         else none) :=
  c9_npl_backward_single_call [xOnes43, wExample, bExample] linExample
    (linExample.forward xOnes43) (by decide) (Or.inr rfl)
    xOnes43 gyExample 4 3 2 rfl rfl (by decide) (by decide)
    (by intro bv hbv
        have h2 : some bExample = some bv := hbv
        injection h2 with h3
        rw [← h3]
        decide)
    rfl 1 0 (by decide) (by decide)

/-! ### C5 -/

/-- The direct parameterized path of the equivalence claim, following the
spec's words: construct a `Linear` with initial weight `W` and initial
bias `b` (no bias when `b` is absent) and call its `forward` on `X`. -/
def directForward {S : Type} [CommRing S] (X W : NDArray S)
    (b : Option (NDArray S)) : Option (Linear S × NDArray S) :=
  match W.shape with
  | [out_size, in_size] =>
      (Linear.init in_size out_size 0 b.isNone (some W) b default).map
        (fun g => (g, g.forward X))
  | _ => none

/-- The direct path's backward, following the spec's words: zero the
gradient accumulators, run a single `backward` with `(X, gy)`, and read
`(gradX, gradW, gradb when the bias exists)` from the accumulators. -/
def directBackward {S : Type} [CommRing S] (g : Linear S) (X gy : NDArray S) :
    List (NDArray S) :=
  let d := g.zerograds
  let r := d.backward X gy
  [r.2, r.1.gW] ++ (match r.1.gb with | none => [] | some gb => [gb])

/-- C5: the one-shot `linear(X, W, b)` produces the same stored operator
and output as the direct parameterized construction with initial weight
`W` and initial bias `b`, and its backward produces the same
`(gradX, gradW, gradb)` as that operator's backward after zeroing the
accumulators. -/
theorem c5_oneshot_equiv (X W : NDArray R) (b : Option (NDArray R))
    (func : Linear R) (Y : NDArray R) (gy : NDArray R)
    (h : linear X W b = some (func, Y)) :
    directForward X W b = some (func, Y) ∧
    NPL.backward func X gy = directBackward func X gy := by
  constructor
  · cases b with
    | none =>
        have hfwd : NPL.forward [X, W] = some (func, Y) := by
          have h2 : NPL.call [X, W] = some (func, Y) := h
          unfold NPL.call at h2
          split at h2
          · exact h2
          · exact Option.noConfusion h2
        obtain ⟨o, i, hsh, hfunc, hY⟩ := NPL.forward_two X W (func, Y) hfwd
        have hfunc2 :
            func = { W := W, b := none, gW := W.zerosLike, gb := none } :=
          hfunc
        have hY2 : Y = func.forward X := hY
        simp only [directForward, hsh, Linear.init, Option.isNone_none,
          if_true, Option.bind_eq_bind, Option.some_bind, Option.map_some]
        rw [hY2, hfunc2]
        rfl
    | some bv =>
        have hfwd : NPL.forward [X, W, bv] = some (func, Y) := by
          have h2 : NPL.call [X, W, bv] = some (func, Y) := h
          unfold NPL.call at h2
          split at h2
          · exact h2
          · exact Option.noConfusion h2
        obtain ⟨o, i, hsh, hbs, hfunc, hY⟩ := NPL.forward_three X W bv (func, Y) hfwd
        have hfunc2 :
            func = { W := W, b := some bv, gW := W.zerosLike,
                     gb := some bv.zerosLike } :=
          hfunc
        have hY2 : Y = func.forward X := hY
        simp only [directForward, hsh, Linear.init, Option.isNone_some,
          if_true, Option.bind_eq_bind, Option.some_bind, Option.map_some]
        rw [if_pos hbs]
        rw [hY2, hfunc2]
        rfl
  · simp only [NPL.backward, directBackward]
    cases hgb : (func.zerograds.backward X gy).1.gb with
    | none => rfl
    | some g => rfl

/-- C5 witness: the theorem applied to the concrete one-shot call with a
bias. -/
theorem c5_oneshot_equiv_witness :
    directForward xOnes43 wExample (some bExample)
        = some (linExample, linExample.forward xOnes43) ∧
    NPL.backward linExample xOnes43 gyExample
      = directBackward linExample xOnes43 gyExample :=
  c5_oneshot_equiv xOnes43 wExample (some bExample) linExample
    (linExample.forward xOnes43) gyExample (by decide)
